import Mathlib

/-!
Shallow embedding of the pomodoro timer state machine and the interactive
loop's key dispatch from `src/main.rs` of `zh30/pomodoros`.

Modelling conventions:
* `std::time::Duration` values are modelled as natural numbers (a count of
  time units); `Duration` arithmetic (`saturating_duration_since`,
  `saturating_sub`, `-=` guarded by a comparison) maps to truncated `Nat`
  subtraction, which agrees with the saturating Rust operations.
* `Instant` is modelled as a `Nat` timestamp; `PomodoroApp::update` takes the
  current instant `now` as an explicit argument instead of calling
  `Instant::now()`.
* `u32`/`u64` counters are modelled as `Nat`; no operation in the claims
  depends on wraparound.
* Rust's `%` panics when the divisor is zero, so `on_finish` (the only place
  a division-like operation occurs on a configurable value) returns
  `Option`, with `none` modelling the panic of
  `self.completed_focus % self.config.long_every` at `long_every = 0`.
  `update` propagates that fallibility.
* The terminal bell in `on_finish` and all rendering are external side
  effects with no bearing on the state fields, and are omitted.
* `progress_ratio` returns `f64` in Rust; it is modelled over `ℚ`.  The
  claims about it concern exact values (0, the elapsed fraction, bounds),
  which the rational model captures.
-/

namespace Pomodoros

/-- The three timer phases (`enum Phase`). -/
inductive Phase where
  | Focus
  | ShortBreak
  | LongBreak
deriving DecidableEq, Repr

/-- `struct PomodoroConfig`: durations as time units, `long_every : u32`
modelled as `Nat`, and the mute flag. -/
structure PomodoroConfig where
  focus : Nat
  short_break : Nat
  long_break : Nat
  long_every : Nat
  mute : Bool
deriving DecidableEq, Repr

/-- `struct PomodoroApp`: the single mutable timer state. -/
structure PomodoroApp where
  config : PomodoroConfig
  phase : Phase
  total : Nat
  remaining : Nat
  running : Bool
  completed_focus : Nat
  last_tick : Nat
deriving DecidableEq, Repr

/-- The configured duration for a phase: the `match` in
`PomodoroApp::reset_current`, factored out for specification reuse. -/
def durationFor (c : PomodoroConfig) : Phase → Nat
  | Phase.Focus => c.focus
  | Phase.ShortBreak => c.short_break
  | Phase.LongBreak => c.long_break

/-- `PomodoroApp::new`: initial state (phase Focus, remaining = total =
configured focus duration, not running, zero completed count); `last_tick`
is the creation instant, taken as an argument. -/
def PomodoroApp.new (config : PomodoroConfig) (now : Nat) : PomodoroApp :=
  { config := config
    phase := Phase.Focus
    total := config.focus
    remaining := config.focus
    running := false
    completed_focus := 0
    last_tick := now }

/-- `PomodoroApp::reset_current`: reassign `total` from the configuration for
the current phase and set `remaining = total`. -/
def PomodoroApp.reset_current (s : PomodoroApp) : PomodoroApp :=
  let t :=
    match s.phase with
    | Phase.Focus => s.config.focus
    | Phase.ShortBreak => s.config.short_break
    | Phase.LongBreak => s.config.long_break
  { s with total := t, remaining := t }

/-- `PomodoroApp::toggle`: flip `running`. -/
def PomodoroApp.toggle (s : PomodoroApp) : PomodoroApp :=
  { s with running := !s.running }

/-- `PomodoroApp::to_next_phase`: advance the phase in the skip cycle
(Focus→ShortBreak, ShortBreak→Focus, LongBreak→Focus) and reset the
durations for the new phase. -/
def PomodoroApp.to_next_phase (s : PomodoroApp) : PomodoroApp :=
  PomodoroApp.reset_current
    { s with
      phase :=
        match s.phase with
        | Phase.Focus => Phase.ShortBreak
        | Phase.ShortBreak => Phase.Focus
        | Phase.LongBreak => Phase.Focus }

/-- `PomodoroApp::skip`: delegates to `to_next_phase`. -/
def PomodoroApp.skip (s : PomodoroApp) : PomodoroApp :=
  s.to_next_phase

/-- `PomodoroApp::on_finish`: the natural-completion transition.  On Focus,
increment `completed_focus` and choose LongBreak iff the new count is
divisible by `long_every` (Rust's `%` panics when `long_every = 0`, modelled
by `none`); on either break, go to Focus.  Then reset durations for the new
phase and set `running := true`.  The bell side effect is omitted. -/
def PomodoroApp.on_finish (s : PomodoroApp) : Option PomodoroApp :=
  match s.phase with
  | Phase.Focus =>
      if s.config.long_every = 0 then
        none
      else
        let completed := s.completed_focus + 1
        let next :=
          if completed % s.config.long_every = 0 then Phase.LongBreak
          else Phase.ShortBreak
        some { PomodoroApp.reset_current
                 { s with completed_focus := completed, phase := next } with
               running := true }
  | Phase.ShortBreak | Phase.LongBreak =>
      some { PomodoroApp.reset_current { s with phase := Phase.Focus } with
             running := true }

/-- `PomodoroApp::update` at instant `now`: if not running, record `now` as
the reference instant; otherwise consume `delta = now - last_tick`
(saturating), completing the phase when `delta ≥ remaining`.  Returns
`none` exactly when `on_finish` does (the modelled panic). -/
def PomodoroApp.update (s : PomodoroApp) (now : Nat) : Option PomodoroApp :=
  if s.running = false then
    some { s with last_tick := now }
  else
    let delta := now - s.last_tick
    let s1 := { s with last_tick := now }
    if s1.remaining ≤ delta then
      PomodoroApp.on_finish { s1 with remaining := 0 }
    else
      some { s1 with remaining := s1.remaining - delta }

/-- `PomodoroApp::progress_ratio`: 0 when `total` is zero, otherwise the
elapsed fraction `(total - remaining) / total` (saturating subtraction),
modelled over `ℚ`. -/
def PomodoroApp.progress_ratio (s : PomodoroApp) : ℚ :=
  if s.total = 0 then 0
  else ((s.total - s.remaining : Nat) : ℚ) / (s.total : ℚ)

/-- `PomodoroApp::formatted_remaining`: `MM:SS` from whole seconds of the
remaining duration; here `remaining` is already a count of seconds. -/
def PomodoroApp.formatted_remaining (s : PomodoroApp) : Nat × Nat :=
  (s.remaining / 60, s.remaining % 60)

/-- Key codes distinguished by the event dispatch in `main`; `Other` stands
for every `crossterm` key code the match treats with the wildcard arm. -/
inductive KeyCode where
  | Chr : Char → KeyCode
  | Esc : KeyCode
  | Right : KeyCode
  | Other : KeyCode
deriving DecidableEq, Repr

/-- The state-machine call (or loop exit) a dispatched key maps to. -/
inductive AppAction where
  | exitLoop
  | doToggle
  | doSkip
  | doReset
  | noop
deriving DecidableEq, Repr

/-- The key-press dispatch `match` in `main` (lines 352-363).  `ctrl` is
`key.modifiers.contains(KeyModifiers::CONTROL)`.  The guard of the first arm
applies to the whole or-pattern `Char('q') | Esc | Char('c')`, exactly as in
Rust's match-guard semantics. -/
def dispatch (code : KeyCode) (ctrl : Bool) : AppAction :=
  if (code = KeyCode.Chr 'q' ∨ code = KeyCode.Esc ∨ code = KeyCode.Chr 'c')
      ∧ ctrl = true then
    AppAction.exitLoop
  else if code = KeyCode.Chr ' ' then
    AppAction.doToggle
  else if code = KeyCode.Chr 'n' ∨ code = KeyCode.Right then
    AppAction.doSkip
  else if code = KeyCode.Chr 'r' then
    AppAction.doReset
  else if code = KeyCode.Chr 'q' then
    AppAction.exitLoop
  else
    AppAction.noop

/-- States reachable from the initial state under any sequence of `toggle`,
`skip`, `reset_current` and successful `update` calls. -/
inductive Reachable : PomodoroApp → Prop where
  | init (cfg : PomodoroConfig) (now : Nat) : Reachable (PomodoroApp.new cfg now)
  | toggle {s : PomodoroApp} : Reachable s → Reachable s.toggle
  | skip {s : PomodoroApp} : Reachable s → Reachable s.skip
  | reset {s : PomodoroApp} : Reachable s → Reachable s.reset_current
  | tick {s s' : PomodoroApp} (now : Nat) :
      Reachable s → s.update now = some s' → Reachable s'

/-! ### Concrete states used to instantiate the theorems -/

/-- A small configuration: focus 2, short break 3, long break 4, long break
every 2 focus sessions. -/
def wCfg : PomodoroConfig := ⟨2, 3, 4, 2, false⟩

/-- A running Focus state with 1 unit remaining. -/
def wStart : PomodoroApp := ⟨wCfg, Phase.Focus, 2, 1, true, 0, 0⟩

/-- The state `wStart.update 5` produces: the Focus phase completed, the
count became 1, and since `1 % 2 ≠ 0` the new phase is ShortBreak. -/
def wDone : PomodoroApp := ⟨wCfg, Phase.ShortBreak, 3, 3, true, 1, 5⟩

/-- A running ShortBreak state with 0 remaining. -/
def wBreak : PomodoroApp := ⟨wCfg, Phase.ShortBreak, 3, 0, true, 1, 5⟩

/-- The state `wBreak.on_finish` produces: back to Focus. -/
def wAfterBreak : PomodoroApp := ⟨wCfg, Phase.Focus, 2, 2, true, 1, 5⟩

/-- A state over a degenerate all-zero-duration configuration (with
`long_every = 1`). -/
def zState : PomodoroApp := ⟨⟨0, 0, 0, 1, true⟩, Phase.Focus, 0, 0, true, 0, 0⟩

/-- A configuration with `long_every = 0`, as produced by `--every 0`. -/
def badConfig : PomodoroConfig := ⟨60, 30, 90, 0, true⟩

/-- A running Focus state under `badConfig` about to complete. -/
def badState : PomodoroApp := ⟨badConfig, Phase.Focus, 60, 0, true, 3, 0⟩

/-! ### Helper lemmas -/

theorem reset_current_total (s : PomodoroApp) :
    s.reset_current.total = durationFor s.config s.phase := by
  cases hp : s.phase <;> simp [PomodoroApp.reset_current, durationFor, hp]

theorem reset_current_fields (s : PomodoroApp) :
    s.reset_current.remaining = s.reset_current.total ∧
    s.reset_current.phase = s.phase ∧
    s.reset_current.running = s.running ∧
    s.reset_current.completed_focus = s.completed_focus ∧
    s.reset_current.config = s.config ∧
    s.reset_current.last_tick = s.last_tick := by
  cases hp : s.phase <;> simp [PomodoroApp.reset_current, hp]

/-- What every successful completion transition guarantees about the
resulting state. -/
theorem on_finish_fields (s s' : PomodoroApp)
    (h : s.on_finish = some s') :
    s'.config = s.config ∧ s'.running = true ∧ s'.last_tick = s.last_tick ∧
    s'.total = durationFor s.config s'.phase ∧ s'.remaining = s'.total ∧
    (s.phase = Phase.Focus →
      s.config.long_every ≠ 0 ∧
      s'.completed_focus = s.completed_focus + 1 ∧
      s'.phase = (if (s.completed_focus + 1) % s.config.long_every = 0
        then Phase.LongBreak else Phase.ShortBreak)) ∧
    (s.phase ≠ Phase.Focus →
      s'.phase = Phase.Focus ∧ s'.completed_focus = s.completed_focus) := by
  cases hp : s.phase with
  | Focus =>
      by_cases hz : s.config.long_every = 0
      · simp [PomodoroApp.on_finish, hp, hz] at h
      · rw [PomodoroApp.on_finish, hp] at h
        simp only [hz, if_false] at h
        by_cases hl : (s.completed_focus + 1) % s.config.long_every = 0 <;>
          simp [hl] at h <;>
          simp [← h, PomodoroApp.reset_current, durationFor, hp, hz, hl]
  | ShortBreak =>
      rw [PomodoroApp.on_finish, hp] at h
      simp only [Option.some.injEq] at h
      simp [← h, PomodoroApp.reset_current, durationFor, hp]
  | LongBreak =>
      rw [PomodoroApp.on_finish, hp] at h
      simp only [Option.some.injEq] at h
      simp [← h, PomodoroApp.reset_current, durationFor, hp]

/-- A running update whose delta covers the remaining time reduces to the
completion transition on the zeroed state. -/
theorem update_run_finish (s : PomodoroApp) (now : Nat)
    (hr : s.running = true) (hd : s.remaining ≤ now - s.last_tick) :
    s.update now =
      PomodoroApp.on_finish { s with last_tick := now, remaining := 0 } := by
  simp [PomodoroApp.update, hr, hd]

/-- The completion transition succeeds whenever `long_every` is nonzero. -/
theorem on_finish_some (s : PomodoroApp) (hz : s.config.long_every ≠ 0) :
    ∃ s', s.on_finish = some s' := by
  cases hp : s.phase <;> simp [PomodoroApp.on_finish, hp, hz]

theorem skip_remaining_total (s : PomodoroApp) :
    s.skip.remaining = s.skip.total := by
  cases hp : s.phase <;>
    simp [PomodoroApp.skip, PomodoroApp.to_next_phase,
      PomodoroApp.reset_current, hp]

/-- A successful `update` preserves `remaining ≤ total`. -/
theorem update_invariant (s s' : PomodoroApp) (now : Nat)
    (h : s.update now = some s') (hinv : s.remaining ≤ s.total) :
    s'.remaining ≤ s'.total := by
  by_cases hr : s.running = false
  · simp [PomodoroApp.update, hr] at h
    rw [← h]
    exact hinv
  · have hr' : s.running = true := by
      cases hb : s.running
      · exact absurd hb hr
      · rfl
    by_cases hd : s.remaining ≤ now - s.last_tick
    · rw [update_run_finish s now hr' hd] at h
      exact le_of_eq (on_finish_fields _ _ h).2.2.2.2.1
    · simp [PomodoroApp.update, hr', hd] at h
      rw [← h]
      exact le_trans (Nat.sub_le _ _) hinv

/-! ### Claim theorems -/

/-- C1: a natural completion (a running tick whose delta reaches the
remaining time, returning a state) of Focus increments `completed_focus` by
exactly 1 and moves to LongBreak iff the new count is divisible by
`long_every`, else ShortBreak; a natural completion of a break moves to
Focus without touching the count; in every case the new phase's durations
are set from configuration and `running` becomes true. -/
theorem natural_completion_correct (s s' : PomodoroApp) (now : Nat)
    (hr : s.running = true) (hd : s.remaining ≤ now - s.last_tick)
    (h : s.update now = some s') :
    s'.running = true ∧
    s'.total = durationFor s.config s'.phase ∧
    s'.remaining = s'.total ∧
    (s.phase = Phase.Focus →
      s'.completed_focus = s.completed_focus + 1 ∧
      s'.phase = (if (s.completed_focus + 1) % s.config.long_every = 0
        then Phase.LongBreak else Phase.ShortBreak)) ∧
    ((s.phase = Phase.ShortBreak ∨ s.phase = Phase.LongBreak) →
      s'.phase = Phase.Focus ∧ s'.completed_focus = s.completed_focus) := by
  rw [update_run_finish s now hr hd] at h
  have hf := on_finish_fields _ _ h
  refine ⟨hf.2.1, hf.2.2.2.1, hf.2.2.2.2.1, ?_, ?_⟩
  · intro hpf
    exact ⟨(hf.2.2.2.2.2.1 hpf).2.1, (hf.2.2.2.2.2.1 hpf).2.2⟩
  · intro hpb
    refine hf.2.2.2.2.2.2 ?_
    rcases hpb with hb | hb <;> simp [hb]

/-- Witness for C1 at `wStart`: ticking at instant 5 completes Focus into
`wDone`. -/
theorem natural_completion_correct_witness :
    wDone.completed_focus = wStart.completed_focus + 1 ∧
    wDone.phase = (if (wStart.completed_focus + 1) % wStart.config.long_every = 0
      then Phase.LongBreak else Phase.ShortBreak) :=
  (natural_completion_correct wStart wDone 5 (by decide) (by decide)
    (by decide)).2.2.2.1 (by decide)

/-- C2: `skip` sends Focus to ShortBreak (always, regardless of the count
and `long_every`), either break to Focus, sets `total` and `remaining` to
the new phase's configured duration, and never changes `completed_focus`. -/
theorem skip_correct (s : PomodoroApp) :
    (s.skip.phase = match s.phase with
      | Phase.Focus => Phase.ShortBreak
      | Phase.ShortBreak => Phase.Focus
      | Phase.LongBreak => Phase.Focus) ∧
    s.skip.total = durationFor s.config s.skip.phase ∧
    s.skip.remaining = s.skip.total ∧
    s.skip.completed_focus = s.completed_focus := by
  cases hp : s.phase <;>
    simp [PomodoroApp.skip, PomodoroApp.to_next_phase,
      PomodoroApp.reset_current, durationFor, hp]

/-- C4: a running tick whose delta covers the remaining time reduces to the
completion transition applied to the state with `remaining` set to exactly
0; whenever it returns a state, that state's `remaining` is the full
configured duration of the new phase — no overshoot carries over. -/
theorem tick_overshoot_correct (s : PomodoroApp) (now : Nat)
    (hr : s.running = true) (hd : s.remaining ≤ now - s.last_tick) :
    s.update now =
      PomodoroApp.on_finish { s with last_tick := now, remaining := 0 } ∧
    (∀ s', s.update now = some s' →
      s'.remaining = durationFor s.config s'.phase ∧
      s'.remaining = s'.total) := by
  refine ⟨update_run_finish s now hr hd, ?_⟩
  intro s' h
  rw [update_run_finish s now hr hd] at h
  have hf := on_finish_fields _ _ h
  exact ⟨by rw [hf.2.2.2.2.1]; exact hf.2.2.2.1, hf.2.2.2.2.1⟩

/-- Witness for C4 at `wStart` with delta 5 overshooting remaining 1. -/
theorem tick_overshoot_correct_witness :
    wDone.remaining = durationFor wStart.config wDone.phase ∧
    wDone.remaining = wDone.total :=
  (tick_overshoot_correct wStart 5 (by decide) (by decide)).2 wDone (by decide)

/-- C3: in every state reachable from the initial state under any sequence
of `toggle`, `skip`, `reset_current` and successful `update` calls,
`0 ≤ remaining ≤ total`. -/
theorem reachable_invariant (s : PomodoroApp) (h : Reachable s) :
    0 ≤ s.remaining ∧ s.remaining ≤ s.total := by
  induction h with
  | init cfg now => exact ⟨Nat.zero_le _, Nat.le_refl _⟩
  | toggle _ ih => exact ⟨Nat.zero_le _, ih.2⟩
  | skip _ ih => exact ⟨Nat.zero_le _, le_of_eq (skip_remaining_total _)⟩
  | reset _ ih => exact ⟨Nat.zero_le _, le_of_eq (reset_current_fields _).1⟩
  | tick now _ hupd ih => exact ⟨Nat.zero_le _, update_invariant _ _ now hupd ih.2⟩

/-- Witness for C3 at the initial state over `wCfg`. -/
theorem reachable_invariant_witness :
    0 ≤ (PomodoroApp.new wCfg 0).remaining ∧
    (PomodoroApp.new wCfg 0).remaining ≤ (PomodoroApp.new wCfg 0).total :=
  reachable_invariant (PomodoroApp.new wCfg 0) (Reachable.init wCfg 0)

/-- C5 counterexample: a press of the escape key with no control modifier is
dispatched to the wildcard no-op arm, not to loop exit — the match guard
`key.modifiers.contains(CONTROL)` covers the whole or-pattern
`Char('q') | Esc | Char('c')`. -/
theorem dispatch_esc_no_modifier_noop :
    dispatch KeyCode.Esc false = AppAction.noop ∧
    dispatch KeyCode.Esc false ≠ AppAction.exitLoop := by
  decide

/-- C5 amended: 'q' exits with or without control; Esc and 'c' exit only
with control and are no-ops without it; space toggles, 'n' and right-arrow
skip, 'r' resets (each regardless of control); every other key is a no-op. -/
theorem dispatch_correct :
    (∀ ctrl, dispatch (KeyCode.Chr 'q') ctrl = AppAction.exitLoop) ∧
    dispatch KeyCode.Esc true = AppAction.exitLoop ∧
    dispatch KeyCode.Esc false = AppAction.noop ∧
    dispatch (KeyCode.Chr 'c') true = AppAction.exitLoop ∧
    dispatch (KeyCode.Chr 'c') false = AppAction.noop ∧
    (∀ ctrl, dispatch (KeyCode.Chr ' ') ctrl = AppAction.doToggle) ∧
    (∀ ctrl, dispatch (KeyCode.Chr 'n') ctrl = AppAction.doSkip) ∧
    (∀ ctrl, dispatch KeyCode.Right ctrl = AppAction.doSkip) ∧
    (∀ ctrl, dispatch (KeyCode.Chr 'r') ctrl = AppAction.doReset) ∧
    (∀ ctrl, dispatch KeyCode.Other ctrl = AppAction.noop) ∧
    (∀ c ctrl, c ≠ 'q' → c ≠ 'c' → c ≠ ' ' → c ≠ 'n' → c ≠ 'r' →
      dispatch (KeyCode.Chr c) ctrl = AppAction.noop) := by
  refine ⟨by decide, by decide, by decide, by decide, by decide, by decide,
    by decide, by decide, by decide, by decide, ?_⟩
  intro c ctrl h1 h2 h3 h4 h5
  simp [dispatch, h1, h2, h3, h4, h5]

/-- Witness for C5's amended theorem: 'x' is a no-op. -/
theorem dispatch_correct_witness :
    dispatch (KeyCode.Chr 'x') false = AppAction.noop :=
  dispatch_correct.2.2.2.2.2.2.2.2.2.2 'x' false (by decide) (by decide)
    (by decide) (by decide) (by decide)

/-- C6 counterexample: with `long_every = 0`, a running tick that completes
a Focus phase fails (Rust panics computing `completed_focus % 0`); the
update is not defined there. -/
theorem update_long_every_zero_fails :
    badState.update 5 = none := by
  decide

/-- C6 amended: for every configuration with `long_every ≠ 0` — zero
durations included — every operation is defined: `update` always returns a
state, a zero-remaining running phase completes on the very next tick
(changing phase, with the new phase's durations reset), and
`progress_ratio` returns 0 rather than dividing by a zero `total`. -/
theorem degenerate_config_defined (s : PomodoroApp) (now : Nat)
    (hz : s.config.long_every ≠ 0) :
    (∃ s', s.update now = some s') ∧
    (s.running = true → s.remaining = 0 →
      ∃ s', s.update now = some s' ∧ s'.phase ≠ s.phase ∧
        s'.remaining = s'.total ∧ s'.running = true) ∧
    (s.total = 0 → s.progress_ratio = 0) := by
  have hfin : ∀ sz : PomodoroApp, sz.config = s.config →
      ∃ s', sz.on_finish = some s' ∧ s'.phase ≠ sz.phase ∧
        s'.remaining = s'.total ∧ s'.running = true := by
    intro sz hc
    obtain ⟨s', hs'⟩ := on_finish_some sz (by rw [hc]; exact hz)
    have hf := on_finish_fields _ _ hs'
    refine ⟨s', hs', ?_, hf.2.2.2.2.1, hf.2.1⟩
    cases hp : sz.phase with
    | Focus =>
        have hfoc := (hf.2.2.2.2.2.1 hp).2.2
        rw [hfoc]
        split <;> simp
    | ShortBreak =>
        rw [(hf.2.2.2.2.2.2 (by simp [hp])).1]
        simp
    | LongBreak =>
        rw [(hf.2.2.2.2.2.2 (by simp [hp])).1]
        simp
  refine ⟨?_, ?_, ?_⟩
  · by_cases hr : s.running = false
    · exact ⟨{ s with last_tick := now }, by simp [PomodoroApp.update, hr]⟩
    · have hr' : s.running = true := by
        cases hb : s.running
        · exact absurd hb hr
        · rfl
      by_cases hd : s.remaining ≤ now - s.last_tick
      · rw [update_run_finish s now hr' hd]
        obtain ⟨s', hs', _⟩ := hfin { s with last_tick := now, remaining := 0 } rfl
        exact ⟨s', hs'⟩
      · refine ⟨{ s with last_tick := now, remaining := s.remaining - (now - s.last_tick) }, ?_⟩
        simp [PomodoroApp.update, hr', hd]
  · intro hr hrem
    have hd : s.remaining ≤ now - s.last_tick := by rw [hrem]; exact Nat.zero_le _
    rw [update_run_finish s now hr hd]
    obtain ⟨s', hs', hph, hrt, hru⟩ :=
      hfin { s with last_tick := now, remaining := 0 } rfl
    exact ⟨s', hs', hph, hrt, hru⟩
  · intro ht
    simp [PomodoroApp.progress_ratio, ht]

/-- Witness for C6's amended theorem at the all-zero-duration state
`zState`: its `progress_ratio` is 0. -/
theorem degenerate_config_defined_witness :
    zState.progress_ratio = 0 :=
  (degenerate_config_defined zState 0 (by decide)).2.2 rfl

/-- C7: a tick while not running succeeds, leaves `remaining`, `phase`,
`total` and `completed_focus` (and `running`) unchanged, and only records
`now` as the new reference instant. -/
theorem tick_paused_frame (s : PomodoroApp) (now : Nat)
    (h : s.running = false) :
    s.update now = some { s with last_tick := now } ∧
    ({ s with last_tick := now } : PomodoroApp).remaining = s.remaining ∧
    ({ s with last_tick := now } : PomodoroApp).phase = s.phase ∧
    ({ s with last_tick := now } : PomodoroApp).total = s.total ∧
    ({ s with last_tick := now } : PomodoroApp).completed_focus =
      s.completed_focus ∧
    ({ s with last_tick := now } : PomodoroApp).running = s.running ∧
    ({ s with last_tick := now } : PomodoroApp).last_tick = now := by
  exact ⟨by simp [PomodoroApp.update, h], rfl, rfl, rfl, rfl, rfl, rfl⟩

/-- Witness for C7: ticking the (paused) initial state at instant 9. -/
theorem tick_paused_frame_witness :
    PomodoroApp.update (PomodoroApp.new wCfg 3) 9 =
      some { PomodoroApp.new wCfg 3 with last_tick := 9 } :=
  (tick_paused_frame (PomodoroApp.new wCfg 3) 9 rfl).1

/-- C8: `reset_current` sets `total` to the configured duration of the
current phase and `remaining = total`, leaving `phase`, `running` and
`completed_focus` unchanged. -/
theorem reset_current_correct (s : PomodoroApp) :
    s.reset_current.total = durationFor s.config s.phase ∧
    s.reset_current.remaining = s.reset_current.total ∧
    s.reset_current.phase = s.phase ∧
    s.reset_current.running = s.running ∧
    s.reset_current.completed_focus = s.completed_focus :=
  ⟨reset_current_total s, (reset_current_fields s).1,
    (reset_current_fields s).2.1, (reset_current_fields s).2.2.1,
    (reset_current_fields s).2.2.2.1⟩

/-- C9: `progress_ratio` is 0 when `total = 0`, otherwise the elapsed
fraction `(total - remaining) / total`; it lies in `[0,1]` whenever
`remaining ≤ total`, is 0 at phase start and 1 when the remaining time has
reached 0. -/
theorem progress_ratio_correct (s : PomodoroApp) :
    (s.total = 0 → s.progress_ratio = 0) ∧
    (s.remaining = s.total → s.progress_ratio = 0) ∧
    (s.total ≠ 0 → s.remaining ≤ s.total →
      s.progress_ratio = ((s.total : ℚ) - (s.remaining : ℚ)) / (s.total : ℚ)) ∧
    (s.remaining ≤ s.total → 0 ≤ s.progress_ratio ∧ s.progress_ratio ≤ 1) ∧
    (s.total ≠ 0 → s.remaining = 0 → s.progress_ratio = 1) := by
  refine ⟨?_, ?_, ?_, ?_, ?_⟩
  · intro ht
    simp [PomodoroApp.progress_ratio, ht]
  · intro hrt
    by_cases ht : s.total = 0
    · simp [PomodoroApp.progress_ratio, ht]
    · simp [PomodoroApp.progress_ratio, ht, hrt]
  · intro ht hle
    simp [PomodoroApp.progress_ratio, ht, Nat.cast_sub hle]
  · intro hle
    by_cases ht : s.total = 0
    · simp [PomodoroApp.progress_ratio, ht]
    · have htq : (0 : ℚ) < (s.total : ℚ) := by
        exact_mod_cast Nat.pos_of_ne_zero ht
      constructor
      · rw [PomodoroApp.progress_ratio, if_neg ht]
        exact div_nonneg (by positivity) (le_of_lt htq)
      · rw [PomodoroApp.progress_ratio, if_neg ht]
        refine div_le_one_of_le₀ ?_ (le_of_lt htq)
        exact_mod_cast Nat.sub_le _ _
  · intro ht hr
    rw [PomodoroApp.progress_ratio, if_neg ht, hr, Nat.sub_zero]
    exact div_self (by exact_mod_cast ht)

/-- Witness for C9 at `wStart` (remaining 1 of total 2). -/
theorem progress_ratio_correct_witness :
    0 ≤ wStart.progress_ratio ∧ wStart.progress_ratio ≤ 1 :=
  (progress_ratio_correct wStart).2.2.2.1 (by decide)

/-- C10: `skip` leaves `running` and `last_tick` unchanged (skipping while
paused stays paused, skipping while running stays running); only the
natural-completion transition forces `running = true`. -/
theorem skip_preserves_running (s : PomodoroApp) :
    s.skip.running = s.running ∧
    s.skip.last_tick = s.last_tick ∧
    (∀ s', s.on_finish = some s' → s'.running = true) := by
  refine ⟨?_, ?_, fun s' h => (on_finish_fields s s' h).2.1⟩ <;>
    cases hp : s.phase <;>
      simp [PomodoroApp.skip, PomodoroApp.to_next_phase,
        PomodoroApp.reset_current, hp]

/-- Witness for C10's completion clause: finishing `wBreak` yields a running
state. -/
theorem skip_preserves_running_witness :
    wAfterBreak.running = true :=
  (skip_preserves_running wBreak).2.2 wAfterBreak (by decide)

end Pomodoros
